import Mathlib

set_option autoImplicit false

/-! Verification of the compile-time heterogeneous container `cafberiht`
(`src/cafberiht_example.cpp`).

Representation conventions of the shallow embedding:
* `uint64_t` values are `Nat`s, with `% 2 ^ 64` applied where the code converts or wraps;
* the element type `core_interface<e>` is identified by the 64-bit numeric identity of its
  enumerator `e`, so a bases pack `bases...` is a `List Nat` of enumerator values;
* a reference to a base subobject of the container is identified by the position of that
  subobject in the bases pack (`Option Nat`, with `none` modelling an ill-formed access);
* a `static_assert` driven through `static_assert_printer` becomes an `Except` value whose
  error carries the diagnostic kind and the embedded compile-time values.
-/

/-- Width of the default aggregator.
Modelled from the spec: `cafberiht_width` is supplied by `config.hpp`, which is not part
of `src/`; the spec fixes the worked harness at width W = 10 (and requires W ≥ 1). -/
def cafberiht_width : Nat := 10

/-- The enumerator set `core_types` of `src/cafberiht_example.cpp`, in declaration order;
the implicit numeric identity starts at 0 and the trailing `count` sentinel denotes the
cardinality of the set. -/
inductive core_types where
  | attn_q
  | attn_k
  | attn_v
  | attn_output
  | attn_norm
  | ffn_gate
  | ffn_up
  | ffn_down
  | moe_gate
  | moe_experts_gate
  | moe_experts_up
  | moe_experts_down
  | ffn_norm
  | token_embd
  | rope_freqs
  | output_norm
  | output
  | end_of_weights
  | inp_tokens
  | inp_pos
  | inp_out_ids
  | cache_k
  | cache_v
  | kq_mask
  | benchmark_data
  | end_of_input_only
  | inp_embd_get_rows
  | end_of_global_inputs
  | norm_rms_norm
  | attn_norm_mul
  | qcur_mul_mat
  | qcur_reshape
  | qcur_rope
  | kcur_mul_mat
  | kcur_reshape
  | kcur_rope
  | vcur_mul_mat
  | k_cache_view
  | k_cache_view_copy
  | vcur_transpose
  | v_cache_view
  | v_cache_view_copy
  | v_view
  | k_view
  | q_permute
  | kq_mul_mat
  | kq_soft_max
  | kqv_mul_mat
  | kqv_merged_permute
  | kqv_merged_cont
  | kqv_out_mul_mat
  | ffn_inp_add
  | norm_pre_ffn_rms_norm
  | ffn_norm_mul
  | ffn_gate_mul_mat
  | ffn_silu
  | ffn_up_mul_mat
  | ffn_gate_par_mul
  | ffn_out_mul_mat
  | moe_inp_add
  | norm_pre_moe_rms_norm
  | moe_norm_mul
  | moe_router_mul_mat
  | moe_router_softmax
  | moe_expert_select
  | moe_expert_gate_mul_mat
  | moe_expert_silu
  | moe_expert_up_mul_mat
  | moe_expert_gate_par_mul
  | moe_expert_down_mul_mat
  | moe_expert_weighted_sum
  | layer_out_add
  | end_of_per_block
  | node_1016_get_rows
  | node_1017_get_rows
  | final_ffn_inp_add
  | final_norm_pre_rms_norm
  | final_ffn_norm_mul
  | final_ffn_gate_mul_mat
  | final_ffn_silu
  | final_ffn_up_mul_mat
  | final_ffn_gate_par_mul
  | final_ffn_out_mul_mat
  | final_moe_inp_add
  | final_norm_pre_moe_rms_norm
  | final_moe_norm_mul
  | final_moe_router_mul_mat
  | final_moe_router_softmax
  | final_moe_expert_select
  | final_moe_expert_gate_mul_mat
  | final_moe_expert_silu
  | final_moe_expert_up_mul_mat
  | final_moe_expert_gate_par_mul
  | final_moe_expert_down_mul_mat
  | final_moe_expert_weighted_sum
  | final_layer_out_add
  | final_norm_rms_norm
  | result_norm_mul
  | result_output_mul_mat
  | sample_tokens
  | count
deriving DecidableEq

/-- Numeric identity of an enumerator: position in declaration order, starting at 0. -/
def core_types.val : core_types → Nat
  | .attn_q => 0
  | .attn_k => 1
  | .attn_v => 2
  | .attn_output => 3
  | .attn_norm => 4
  | .ffn_gate => 5
  | .ffn_up => 6
  | .ffn_down => 7
  | .moe_gate => 8
  | .moe_experts_gate => 9
  | .moe_experts_up => 10
  | .moe_experts_down => 11
  | .ffn_norm => 12
  | .token_embd => 13
  | .rope_freqs => 14
  | .output_norm => 15
  | .output => 16
  | .end_of_weights => 17
  | .inp_tokens => 18
  | .inp_pos => 19
  | .inp_out_ids => 20
  | .cache_k => 21
  | .cache_v => 22
  | .kq_mask => 23
  | .benchmark_data => 24
  | .end_of_input_only => 25
  | .inp_embd_get_rows => 26
  | .end_of_global_inputs => 27
  | .norm_rms_norm => 28
  | .attn_norm_mul => 29
  | .qcur_mul_mat => 30
  | .qcur_reshape => 31
  | .qcur_rope => 32
  | .kcur_mul_mat => 33
  | .kcur_reshape => 34
  | .kcur_rope => 35
  | .vcur_mul_mat => 36
  | .k_cache_view => 37
  | .k_cache_view_copy => 38
  | .vcur_transpose => 39
  | .v_cache_view => 40
  | .v_cache_view_copy => 41
  | .v_view => 42
  | .k_view => 43
  | .q_permute => 44
  | .kq_mul_mat => 45
  | .kq_soft_max => 46
  | .kqv_mul_mat => 47
  | .kqv_merged_permute => 48
  | .kqv_merged_cont => 49
  | .kqv_out_mul_mat => 50
  | .ffn_inp_add => 51
  | .norm_pre_ffn_rms_norm => 52
  | .ffn_norm_mul => 53
  | .ffn_gate_mul_mat => 54
  | .ffn_silu => 55
  | .ffn_up_mul_mat => 56
  | .ffn_gate_par_mul => 57
  | .ffn_out_mul_mat => 58
  | .moe_inp_add => 59
  | .norm_pre_moe_rms_norm => 60
  | .moe_norm_mul => 61
  | .moe_router_mul_mat => 62
  | .moe_router_softmax => 63
  | .moe_expert_select => 64
  | .moe_expert_gate_mul_mat => 65
  | .moe_expert_silu => 66
  | .moe_expert_up_mul_mat => 67
  | .moe_expert_gate_par_mul => 68
  | .moe_expert_down_mul_mat => 69
  | .moe_expert_weighted_sum => 70
  | .layer_out_add => 71
  | .end_of_per_block => 72
  | .node_1016_get_rows => 73
  | .node_1017_get_rows => 74
  | .final_ffn_inp_add => 75
  | .final_norm_pre_rms_norm => 76
  | .final_ffn_norm_mul => 77
  | .final_ffn_gate_mul_mat => 78
  | .final_ffn_silu => 79
  | .final_ffn_up_mul_mat => 80
  | .final_ffn_gate_par_mul => 81
  | .final_ffn_out_mul_mat => 82
  | .final_moe_inp_add => 83
  | .final_norm_pre_moe_rms_norm => 84
  | .final_moe_norm_mul => 85
  | .final_moe_router_mul_mat => 86
  | .final_moe_router_softmax => 87
  | .final_moe_expert_select => 88
  | .final_moe_expert_gate_mul_mat => 89
  | .final_moe_expert_silu => 90
  | .final_moe_expert_up_mul_mat => 91
  | .final_moe_expert_gate_par_mul => 92
  | .final_moe_expert_down_mul_mat => 93
  | .final_moe_expert_weighted_sum => 94
  | .final_layer_out_add => 95
  | .final_norm_rms_norm => 96
  | .result_norm_mul => 97
  | .result_output_mul_mat => 98
  | .sample_tokens => 99
  | .count => 100

/-- `std::numeric_limits<uint64_t>::max()`, the absent-enumerator sentinel. -/
def uint64_max : Nat := 2 ^ 64 - 1

/-- `tag<index>` is `std::integral_constant<uint64_t, static_cast<uint64_t>(index)>`.
Two such types are the same type exactly when the converted 64-bit payloads coincide, so
a tag type is modelled by its converted payload value. -/
def tag (index : Nat) : Nat := index % 2 ^ 64

/-- The closed diagnostic-kind set `enum class cafberiht_errors`. -/
inductive cafberiht_errors where
  | get_core_by_index_oob
  | invalid_base_cast
  | empty_cafberiht_bases_pack
deriving DecidableEq

/-- A compile-time diagnostic: the error kind together with the compile-time values that
`error_printer_val_inserter<values...>` embeds in the error text. -/
structure diagnostic where
  kind : cafberiht_errors
  values : List Nat
deriving DecidableEq

/-- `static_assert_printer<value, enum_error, values...>::impl`: yields `true` when the
condition holds, and otherwise forces a compile-time error naming `enum_error` and the
inserted values. -/
def static_assert_printer (value : Bool) (enum_error : cafberiht_errors)
    (values : List Nat) : Except diagnostic Bool :=
  if value then Except.ok true else Except.error ⟨enum_error, values⟩

/-- `core_interface<enum_value_new>::enum_value`, converted back to `uint64_t`: the stored
enumerator of the base identified by `enum_value_new` is `enum_value_new` itself. -/
def core_interface_enum_value (enum_value_new : Nat) : Nat := enum_value_new

/-- A mixin (visitor) over walk state `σ`: `filter` is the compile-time admission
predicate, a function of the element type (hence of its enumerator value), and `impl` the
action of `mixin_type<base_type>::impl(*this, args...)`; the container, its elements and
all forwarded arguments are abstracted into the single state `σ`. -/
structure mixin (σ : Type) where
  filter : Nat → Bool
  impl : Nat → σ → σ

namespace cafberiht

/-- `cafberiht<bases...>::size`, i.e. `sizeof...(bases)`. -/
def size (bases : List Nat) : Nat := bases.length

/-- The member `static_assert` of `struct cafberiht`: the bases pack must be non-empty. -/
def bases_pack_check (bases : List Nat) : Except diagnostic Bool :=
  static_assert_printer (decide (size bases > 0))
    cafberiht_errors.empty_cafberiht_bases_pack []

/-- `index_transform_values`: the compile-time table
`{ static_cast<uint64_t>(bases::enum_value)... }` mapping array position to enumerator. -/
def index_transform_values (bases : List Nat) : List Nat :=
  bases.map core_interface_enum_value

/-- Overload resolution of `(*this)[tag<t>()]` against the merged overload set
`using bases::operator[]...`: each base `core_elem_base<e, core_interface<e>>` contributes
exactly one candidate, keyed on `tag<e>`. The call is well-formed exactly when exactly one
base matches the key, and then returns a reference to that base subobject, modelled as its
position in the bases pack; `none` models an ill-formed call (no viable candidate, or a
duplicated base, which already makes the derivation itself ill-formed). -/
def subscript (bases : List Nat) (t : Nat) : Option Nat :=
  if bases.count t = 1 then some (bases.indexOf t) else none

/-- `get_core_by_enum<enum_value>()`, i.e.
`(*this)[tag<static_cast<uint64_t>(enum_value)>()]`; the `enum_type` template argument is
represented by its numeric identity. -/
def get_core_by_enum (bases : List Nat) (enum_value : Nat) : Option Nat :=
  subscript bases (tag enum_value)

/-- `get_core_by_index<index_new>()`: a compile-time bounds check through the diagnostic
channel, then tag dispatch on `index_transform_values[index_new]`. -/
def get_core_by_index (bases : List Nat) (index_new : Nat) :
    Except diagnostic (Option Nat) := do
  let _ ← static_assert_printer (decide (index_new < size bases))
    cafberiht_errors.get_core_by_index_oob [index_new]
  let index := (index_transform_values bases).getD index_new 0
  pure (subscript bases (tag index))

/-- Loop body of `get_core_by_enum`'s reverse, `get_index_by_enum`: scan `values` from
position `x` upward, returning the first position holding `e`, else `uint64_max`. -/
def get_index_by_enum_loop (values : List Nat) (e : Nat) (x : Nat) : Nat :=
  if h : x < values.length then
    if values.get ⟨x, h⟩ = e then x
    else get_index_by_enum_loop values e (x + 1)
  else uint64_max
termination_by values.length - x
decreasing_by simp_wf; omega

/-- `get_index_by_enum<enum_value>()`: linear scan of `index_transform_values` from
`x = 0`; the comparison `static_cast<enum_type>(index_transform_values[x]) == enum_value`
is value-preserving and is modelled as numeric equality. -/
def get_index_by_enum (bases : List Nat) (enum_value : Nat) : Nat :=
  get_index_by_enum_loop (index_transform_values bases) enum_value 0

/-- `impl_internal_filtered<mixin_type, base_type>(args...)`: when the mixin admits the
base type, assert `std::is_base_of_v<base_type, cafberiht>` through the diagnostic
channel — for a base type drawn from a bases pack this holds exactly when the type occurs
in this container's pack — and then invoke the mixin action. -/
def impl_internal_filtered {σ : Type} (mixin_type : mixin σ) (bases : List Nat)
    (base_type : Nat) (s : σ) : Except diagnostic σ :=
  if mixin_type.filter base_type then do
    let _ ← static_assert_printer (decide (base_type ∈ bases))
      cafberiht_errors.invalid_base_cast []
    pure (mixin_type.impl base_type s)
  else pure s

/-- `impl<mixin_type>(args...)`: the left-to-right comma fold
`(impl_internal_filtered<mixin_type, bases>(args...), ...)` over the bases pack in
declaration order. -/
def impl {σ : Type} (mixin_type : mixin σ) (bases : List Nat) (s : σ) :
    Except diagnostic σ :=
  bases.foldlM (fun s' base_type => impl_internal_filtered mixin_type bases base_type s') s

end cafberiht

/-- `core_aggregator::values`: an array of `cafberiht_width` entries with
`values[x] = x`, i.e. the first `cafberiht_width` enumerators in declaration order. -/
def core_aggregator_values : List Nat := List.range cafberiht_width

/-- The bases pack of `get_cafberiht_array_t<core_types, core_aggregator,
core_interface>`: one base `core_interface<static_cast<core_types>(values[i])>` per
aggregator entry, each represented by its enumerator value. -/
def main_cafberiht_bases : List Nat :=
  core_aggregator_values.map core_interface_enum_value

/-- Walk state of `addition_mixin`: the `volatile uint64_t&` accumulator `output_value`
together with the number of `rand()` calls made so far; the surrounding `rand()` stream
supplies `rands n` as the result of the (n+1)-st call. -/
structure addition_state where
  output_value : Nat
  rand_calls : Nat
deriving DecidableEq

/-- `addition_mixin<base_type>`: `filter()` admits element types with even enumerator
value, and `impl` performs `output_value += rand()` with 64-bit wraparound. -/
def addition_mixin (rands : Nat → Nat) : mixin addition_state where
  filter enum_value := (enum_value % 2) == 0
  impl := fun _ s =>
    { output_value := (s.output_value + rands s.rand_calls) % 2 ^ 64,
      rand_calls := s.rand_calls + 1 }

/-- The single line written by `main` to standard output. -/
def main_output_line (value : Nat) : String :=
  "Final Value: " ++ toString value ++ ", For Cafberiht Width of: " ++
    toString cafberiht_width

/-- `main()`: default-construct the container, run the walk with `addition_mixin` over a
zero-initialised accumulator, print the line, return 0. The result is the triple of the
final accumulator, the printed line and the exit status, as a function of the `rand()`
stream. -/
def main_run (rands : Nat → Nat) : Except diagnostic (Nat × String × Nat) := do
  let s ← cafberiht.impl (addition_mixin rands) main_cafberiht_bases ⟨0, 0⟩
  pure (s.output_value, main_output_line s.output_value, 0)

/-! Helper lemmas. -/

theorem index_transform_values_eq (bases : List Nat) :
    cafberiht.index_transform_values bases = bases := by
  rw [cafberiht.index_transform_values, show core_interface_enum_value = id from rfl,
    List.map_id]

theorem tag_eq_of_lt {v : Nat} (h : v < 2 ^ 64) : tag v = v := Nat.mod_eq_of_lt h

theorem impl_internal_filtered_of_mem {σ : Type} (m : mixin σ) (bases : List Nat)
    {b : Nat} (hb : b ∈ bases) (s : σ) :
    cafberiht.impl_internal_filtered m bases b s =
      Except.ok (if m.filter b then m.impl b s else s) := by
  unfold cafberiht.impl_internal_filtered
  cases hf : m.filter b
  · simp only [hf, Bool.false_eq_true, if_false]
    rfl
  · simp [hf, static_assert_printer, hb]

theorem impl_eq_filter_foldl_aux {σ : Type} (m : mixin σ) (bases : List Nat) :
    ∀ (l : List Nat), (∀ b ∈ l, b ∈ bases) → ∀ (s : σ),
      l.foldlM (fun s' base_type => cafberiht.impl_internal_filtered m bases base_type s')
          s =
        Except.ok ((l.filter m.filter).foldl (fun s' b => m.impl b s') s) := by
  intro l
  induction l with
  | nil => intro _ s; rfl
  | cons b t ih =>
    intro h s
    have hb : b ∈ bases := h b (List.mem_cons_self b t)
    have ht : ∀ x ∈ t, x ∈ bases := fun x hx => h x (List.mem_cons_of_mem b hx)
    rw [List.foldlM_cons, impl_internal_filtered_of_mem m bases hb s]
    cases hf : m.filter b
    · simpa [List.filter_cons, hf] using ih ht s
    · simpa [List.filter_cons, hf] using ih ht (m.impl b s)

theorem impl_eq_filter_foldl {σ : Type} (m : mixin σ) (bases : List Nat) (s : σ) :
    cafberiht.impl m bases s =
      Except.ok ((bases.filter m.filter).foldl (fun s' b => m.impl b s') s) :=
  impl_eq_filter_foldl_aux m bases bases (fun _ hb => hb) s

/-! Claim theorems. -/

/-- Claim C1: the walk `impl` invokes the mixin action exactly on the elements of the
bases pack whose type is admitted by the compile-time predicate, sequenced in ascending
aggregator order: it equals the plain fold of the action over the admitted subsequence
`bases.filter V.filter`, which is a subsequence of the pack in pack order. -/
theorem walk_visits_admitted_in_aggregator_order {σ : Type} (V : mixin σ)
    (bases : List Nat) (s : σ) :
    cafberiht.impl V bases s =
        Except.ok ((bases.filter V.filter).foldl (fun s' b => V.impl b s') s) ∧
      (bases.filter V.filter).Sublist bases :=
  ⟨impl_eq_filter_foldl V bases s, List.filter_sublist bases⟩

/-- Claim C7: a visitor admitting no element type makes the walk a no-op: it returns the
state unchanged and raises no diagnostic. -/
theorem walk_no_admitted_is_identity {σ : Type} (V : mixin σ) (bases : List Nat) (s : σ)
    (h : ∀ e ∈ bases, V.filter e = false) :
    cafberiht.impl V bases s = Except.ok s := by
  have hf : bases.filter V.filter = [] :=
    List.filter_eq_nil_iff.mpr (fun a ha => by simp [h a ha])
  rw [impl_eq_filter_foldl V bases s, hf]
  rfl

/-- Claim C7 witness: a concrete never-admitting visitor on the pack (0,1,2,3) leaves the
state 5 unchanged. -/
theorem walk_no_admitted_is_identity_witness :
    cafberiht.impl ⟨fun _ => false, fun e s => s + e + 1⟩ [0, 1, 2, 3] (5 : Nat) =
      Except.ok 5 :=
  walk_no_admitted_is_identity ⟨fun _ => false, fun e s => s + e + 1⟩ [0, 1, 2, 3] 5
    (fun _ _ => rfl)

/-- Claim C10: inside a walk started through `impl`, the guard
`is_base_of_v<base_type, cafberiht>` always holds, since `base_type` ranges only over the
container's own bases pack; consequently the `invalid_base_cast` diagnostic is
unreachable and the walk always succeeds. -/
theorem invalid_base_cast_unreachable_from_impl {σ : Type} (m : mixin σ)
    (bases : List Nat) (s : σ) (base_type : Nat) (hb : base_type ∈ bases) :
    static_assert_printer (decide (base_type ∈ bases))
          cafberiht_errors.invalid_base_cast [] = Except.ok true ∧
      (cafberiht.impl m bases s).isOk = true := by
  refine ⟨by simp [static_assert_printer, hb], ?_⟩
  rw [impl_eq_filter_foldl m bases s]
  rfl

/-- Claim C10 witness: concrete guard success and walk success on the pack (1,2,3). -/
theorem invalid_base_cast_unreachable_from_impl_witness :
    static_assert_printer (decide ((2 : Nat) ∈ [1, 2, 3]))
          cafberiht_errors.invalid_base_cast [] = Except.ok true ∧
      (cafberiht.impl ⟨fun _ => true, fun e s => s + e⟩ [1, 2, 3] (0 : Nat)).isOk =
        true :=
  invalid_base_cast_unreachable_from_impl ⟨fun _ => true, fun e s => s + e⟩ [1, 2, 3] 0 2
    (by decide)

theorem get_index_by_enum_loop_ge (values : List Nat) (e x : Nat)
    (h : values.length ≤ x) :
    cafberiht.get_index_by_enum_loop values e x = uint64_max := by
  rw [cafberiht.get_index_by_enum_loop]
  simp [Nat.not_lt.mpr h]

theorem get_index_by_enum_loop_spec (values : List Nat) (e : Nat) :
    ∀ (n x : Nat), values.length - x ≤ n →
      ((∃ i, x ≤ i ∧ values.get? i = some e) →
          values.get? (cafberiht.get_index_by_enum_loop values e x) = some e ∧
            ∀ j, x ≤ j → j < cafberiht.get_index_by_enum_loop values e x →
              values.get? j ≠ some e) ∧
      ((∀ i, x ≤ i → values.get? i ≠ some e) →
          cafberiht.get_index_by_enum_loop values e x = uint64_max) := by
  intro n
  induction n with
  | zero =>
    intro x hx
    have hlen : values.length ≤ x := by omega
    have hloop := get_index_by_enum_loop_ge values e x hlen
    constructor
    · rintro ⟨i, hxi, hi⟩
      obtain ⟨hlt, -⟩ := List.get?_eq_some.mp hi
      omega
    · intro _
      exact hloop
  | succ n ih =>
    intro x hx
    by_cases hxl : x < values.length
    · have hstep : cafberiht.get_index_by_enum_loop values e x =
          if values.get ⟨x, hxl⟩ = e then x
          else cafberiht.get_index_by_enum_loop values e (x + 1) := by
        rw [cafberiht.get_index_by_enum_loop]
        simp [hxl]
      have hx1 : values.length - (x + 1) ≤ n := by omega
      have hgetx : values.get? x = some (values.get ⟨x, hxl⟩) := List.get?_eq_get hxl
      by_cases he : values.get ⟨x, hxl⟩ = e
      · rw [hstep, if_pos he]
        constructor
        · intro _
          refine ⟨by rw [hgetx, he], fun j hxj hjx => ?_⟩
          omega
        · intro hnone
          exact absurd (by rw [hgetx, he]) (hnone x le_rfl)
      · rw [hstep, if_neg he]
        have hxe : values.get? x ≠ some e := by
          rw [hgetx]
          exact fun hc => he (Option.some.inj hc)
        constructor
        · rintro ⟨i, hxi, hi⟩
          have hix : i ≠ x := fun hix => hxe (hix ▸ hi)
          have h1 := (ih (x + 1) hx1).1 ⟨i, by omega, hi⟩
          refine ⟨h1.1, fun j hxj hjl => ?_⟩
          rcases Nat.eq_or_lt_of_le hxj with hjx | hjx
          · exact hjx ▸ hxe
          · exact h1.2 j (by omega) hjl
        · intro hnone
          exact (ih (x + 1) hx1).2 (fun i h1 => hnone i (by omega))
    · have hlen : values.length ≤ x := by omega
      have hloop := get_index_by_enum_loop_ge values e x hlen
      constructor
      · rintro ⟨i, hxi, hi⟩
        obtain ⟨hlt, -⟩ := List.get?_eq_some.mp hi
        omega
      · intro _
        exact hloop

/-- Claim C2: `get_index_by_enum` returns the smallest index `i < W` at which the
enumerator appears among the aggregated values, and the sentinel `2^64 - 1` when it
appears nowhere; the query is a total function of its inputs with no side effects. -/
theorem get_index_by_enum_smallest_or_sentinel (bases : List Nat) (e : core_types) :
    (e.val ∈ bases →
        bases.get? (cafberiht.get_index_by_enum bases e.val) = some e.val ∧
          ∀ j < cafberiht.get_index_by_enum bases e.val, bases.get? j ≠ some e.val) ∧
      (e.val ∉ bases → cafberiht.get_index_by_enum bases e.val = uint64_max) := by
  have heq : cafberiht.get_index_by_enum bases e.val =
      cafberiht.get_index_by_enum_loop bases e.val 0 := by
    rw [cafberiht.get_index_by_enum, index_transform_values_eq]
  have h := get_index_by_enum_loop_spec bases e.val bases.length 0 (by omega)
  rw [heq]
  constructor
  · intro hmem
    obtain ⟨i, hi⟩ := List.get?_of_mem hmem
    obtain ⟨h1, h2⟩ := h.1 ⟨i, Nat.zero_le i, hi⟩
    exact ⟨h1, fun j hj => h2 j (Nat.zero_le j) hj⟩
  · intro hmem
    exact h.2 (fun i _ hi => hmem (List.get?_mem hi))

/-- Claim C2 witness: in the pack (5, 2, 2) the enumerator `attn_v` (value 2) is first
found at position 1, and the absent enumerator `attn_q` (value 0) yields the sentinel. -/
theorem get_index_by_enum_smallest_or_sentinel_witness :
    ([5, 2, 2].get? (cafberiht.get_index_by_enum [5, 2, 2] core_types.attn_v.val) =
          some core_types.attn_v.val ∧
        ∀ j < cafberiht.get_index_by_enum [5, 2, 2] core_types.attn_v.val,
          [5, 2, 2].get? j ≠ some core_types.attn_v.val) ∧
      cafberiht.get_index_by_enum [5, 2, 2] core_types.attn_q.val = uint64_max :=
  ⟨(get_index_by_enum_smallest_or_sentinel [5, 2, 2] core_types.attn_v).1 (by decide),
    (get_index_by_enum_smallest_or_sentinel [5, 2, 2] core_types.attn_q).2 (by decide)⟩

theorem subscript_get_of_nodup (bases : List Nat) (hnd : bases.Nodup) (i : Nat)
    (hi : i < bases.length) :
    cafberiht.subscript bases bases[i] = some i := by
  have hmem : bases[i] ∈ bases := List.getElem_mem hi
  have hcnt : List.count bases[i] bases = 1 := List.count_eq_one_of_mem hnd hmem
  have hidx : List.indexOf bases[i] bases = i := List.indexOf_getElem hnd i hi
  simp [cafberiht.subscript, hcnt, hidx]

theorem getD_zero_eq_getElem (bases : List Nat) (i : Nat) (hi : i < bases.length) :
    bases.getD i 0 = bases[i] := by
  rw [List.getD_eq_getElem?_getD, List.getElem?_eq_getElem hi]
  rfl

theorem get_core_by_index_ok_of_nodup (bases : List Nat)
    (hb : ∀ v ∈ bases, v < 2 ^ 64) (hnd : bases.Nodup) (i : Nat)
    (hi : i < cafberiht.size bases) :
    cafberiht.get_core_by_index bases i = Except.ok (some i) := by
  have hi' : i < bases.length := hi
  have hget : bases.getD i 0 = bases[i] := getD_zero_eq_getElem bases i hi'
  have htag : tag (bases.getD i 0) = bases.getD i 0 :=
    tag_eq_of_lt (hb _ (by rw [hget]; exact List.getElem_mem hi'))
  have hassert : static_assert_printer (decide (i < cafberiht.size bases))
      cafberiht_errors.get_core_by_index_oob [i] = Except.ok true := by
    simp [static_assert_printer, hi]
  simp only [cafberiht.get_core_by_index, hassert, index_transform_values_eq]
  show Except.ok (cafberiht.subscript bases (tag (bases.getD i 0))) = Except.ok (some i)
  rw [htag, hget, subscript_get_of_nodup bases hnd i hi']

/-- Claim C3: in a container whose aggregator entries are pairwise distinct, tag-keyed
access on the enumerator stored at position `i` and positional access at `i` resolve to
the same base subobject — the same storage. -/
theorem tag_access_aliases_positional_access (bases : List Nat)
    (hb : ∀ v ∈ bases, v < 2 ^ 64) (hnd : bases.Nodup) (i : Nat)
    (hi : i < cafberiht.size bases) :
    cafberiht.get_core_by_enum bases (bases.getD i 0) = some i ∧
      cafberiht.get_core_by_index bases i = Except.ok (some i) := by
  have hi' : i < bases.length := hi
  have hget : bases.getD i 0 = bases[i] := getD_zero_eq_getElem bases i hi'
  have htag : tag (bases.getD i 0) = bases.getD i 0 :=
    tag_eq_of_lt (hb _ (by rw [hget]; exact List.getElem_mem hi'))
  constructor
  · rw [cafberiht.get_core_by_enum, htag, hget]
    exact subscript_get_of_nodup bases hnd i hi'
  · exact get_core_by_index_ok_of_nodup bases hb hnd i hi

/-- Claim C3 witness: in the pack (4, 7, 9), tag access on the entry at position 1 and
positional access at 1 both resolve to base subobject 1. -/
theorem tag_access_aliases_positional_access_witness :
    cafberiht.get_core_by_enum [4, 7, 9] ([4, 7, 9].getD 1 0) = some 1 ∧
      cafberiht.get_core_by_index [4, 7, 9] 1 = Except.ok (some 1) :=
  tag_access_aliases_positional_access [4, 7, 9] (by decide) (by decide) 1 (by decide)

/-- Claim C4 counterexample: in the duplicated pack (attn_q, attn_q), positional access
at index 0 is in range but does not yield the 0-th element — `get_core_by_index` routes
through tag dispatch on the stored enumerator, which two bases provide, so the access is
ill-formed (and the duplicated derivation itself already is). -/
theorem get_core_by_index_duplicate_counterexample :
    cafberiht.get_core_by_index [0, 0] 0 ≠ Except.ok (some 0) := by
  have h : cafberiht.get_core_by_index [0, 0] 0 = Except.ok none := rfl
  rw [h]
  intro hc
  exact Option.noConfusion (Except.ok.inj hc)

/-- Claim C4 amended: for aggregators with pairwise-distinct entries, positional access
`get_core_by_index<n>` with `n < W` is well-formed and yields a reference to the n-th
element; with duplicated entries, positional access at a position holding a duplicated
enumerator is ill-formed as well, because it is routed through tag-based dispatch. -/
theorem get_core_by_index_nodup_yields_nth (bases : List Nat)
    (hb : ∀ v ∈ bases, v < 2 ^ 64) (hnd : bases.Nodup) (n : Nat)
    (hn : n < cafberiht.size bases) :
    cafberiht.get_core_by_index bases n = Except.ok (some n) :=
  get_core_by_index_ok_of_nodup bases hb hnd n hn

/-- Claim C4 witness: in the distinct pack (3, 1, 2), positional access at 2 yields base
subobject 2. -/
theorem get_core_by_index_nodup_yields_nth_witness :
    cafberiht.get_core_by_index [3, 1, 2] 2 = Except.ok (some 2) :=
  get_core_by_index_nodup_yields_nth [3, 1, 2] (by decide) (by decide) 2 (by decide)

/-- Claim C5: positional access out of bounds (`n ≥ W`) fails through the diagnostic
channel with kind `get_core_by_index_oob` and the literal offending index embedded in the
diagnostic, while in-bounds access raises no diagnostic. -/
theorem get_core_by_index_bounds_diagnostic (bases : List Nat) (n : Nat) :
    (cafberiht.size bases ≤ n →
        cafberiht.get_core_by_index bases n =
          Except.error ⟨cafberiht_errors.get_core_by_index_oob, [n]⟩) ∧
      (n < cafberiht.size bases →
        ∃ r, cafberiht.get_core_by_index bases n = Except.ok r) := by
  constructor
  · intro hge
    have hassert : static_assert_printer (decide (n < cafberiht.size bases))
        cafberiht_errors.get_core_by_index_oob [n] =
          Except.error ⟨cafberiht_errors.get_core_by_index_oob, [n]⟩ := by
      simp [static_assert_printer, Nat.not_lt.mpr hge]
    simp only [cafberiht.get_core_by_index, hassert]
    rfl
  · intro hlt
    have hassert : static_assert_printer (decide (n < cafberiht.size bases))
        cafberiht_errors.get_core_by_index_oob [n] = Except.ok true := by
      simp [static_assert_printer, hlt]
    simp only [cafberiht.get_core_by_index, hassert]
    exact ⟨_, rfl⟩

/-- Claim C5 witness: in the pack (1, 2) of width 2, access at 5 produces the
out-of-bounds diagnostic embedding the literal 5, and access at 0 succeeds. -/
theorem get_core_by_index_bounds_diagnostic_witness :
    cafberiht.get_core_by_index [1, 2] 5 =
        Except.error ⟨cafberiht_errors.get_core_by_index_oob, [5]⟩ ∧
      ∃ r, cafberiht.get_core_by_index [1, 2] 0 = Except.ok r :=
  ⟨(get_core_by_index_bounds_diagnostic [1, 2] 5).1 (by decide),
    (get_core_by_index_bounds_diagnostic [1, 2] 0).2 (by decide)⟩

/-- Claim C6: instantiating the container with an empty bases pack fails the member
static assertion with kind `empty_cafberiht_bases_pack`, and every non-empty pack passes
it silently. -/
theorem empty_bases_pack_diagnostic (bases : List Nat) :
    (cafberiht.size bases = 0 →
        cafberiht.bases_pack_check bases =
          Except.error ⟨cafberiht_errors.empty_cafberiht_bases_pack, []⟩) ∧
      (1 ≤ cafberiht.size bases → cafberiht.bases_pack_check bases = Except.ok true) := by
  constructor
  · intro h0
    simp [cafberiht.bases_pack_check, static_assert_printer, h0]
  · intro h1
    simp [cafberiht.bases_pack_check, static_assert_printer, Nat.lt_of_lt_of_le Nat.zero_lt_one h1]

/-- Claim C6 witness: the empty pack fails with `empty_cafberiht_bases_pack` and the
width-1 pack (0) passes. -/
theorem empty_bases_pack_diagnostic_witness :
    cafberiht.bases_pack_check [] =
        Except.error ⟨cafberiht_errors.empty_cafberiht_bases_pack, []⟩ ∧
      cafberiht.bases_pack_check [0] = Except.ok true :=
  ⟨(empty_bases_pack_diagnostic []).1 (by decide),
    (empty_bases_pack_diagnostic [0]).2 (by decide)⟩

theorem core_types_val_lt (e : core_types) : e.val < 2 ^ 64 := by
  cases e <;> decide

/-- Claim C8 counterexample: the enumerator `attn_q` and the plain unsigned integer 0
yield the very same tag type `std::integral_constant<uint64_t, 0>` — `tag` converts both
payloads to `uint64_t` first — refuting that an enumerator and an integer always give
distinct tag types. -/
theorem tag_enum_and_int_coincide_counterexample :
    tag core_types.attn_q.val = tag 0 ∧ core_types.attn_q.val = 0 := ⟨rfl, rfl⟩

/-- Claim C8 amended: tag types are identical exactly when the payloads have equal 64-bit
unsigned value after conversion; in particular an enumerator `e` and an integer `n` yield
the same tag type precisely when `n` converts to the numeric value of `e`, and unrelated
types otherwise. -/
theorem tag_type_identity_iff (a b : Nat) (e : core_types) (n : Nat) :
    (tag a = tag b ↔ a % 2 ^ 64 = b % 2 ^ 64) ∧
      (tag e.val = tag n ↔ e.val = n % 2 ^ 64) := by
  constructor
  · exact Iff.rfl
  · unfold tag
    rw [Nat.mod_eq_of_lt (core_types_val_lt e)]

/-- Claim C9: in the worked harness of width 10 the walk with `addition_mixin` admits
exactly the aggregator indices 0, 2, 4, 6, 8 — five additions, each drawing one fresh
`rand()` value — and `main` prints exactly the one line
`Final Value: <decimal>, For Cafberiht Width of: <decimal>` whose second decimal equals
`cafberiht_width = 10`, then exits with status 0, for every `rand()` stream. -/
theorem main_harness_parity_walk (rands : Nat → Nat) :
    (List.range (cafberiht.size main_cafberiht_bases)).filter
        (fun i => (addition_mixin rands).filter (main_cafberiht_bases.getD i 0)) =
      [0, 2, 4, 6, 8] ∧
    (∃ s : addition_state,
        cafberiht.impl (addition_mixin rands) main_cafberiht_bases ⟨0, 0⟩ =
            Except.ok s ∧
          s.rand_calls = 5 ∧
          main_run rands =
            Except.ok (s.output_value, main_output_line s.output_value, 0)) ∧
    (∀ v : Nat, main_output_line v =
        "Final Value: " ++ toString v ++ ", For Cafberiht Width of: " ++
          toString cafberiht_width) ∧
    toString cafberiht_width = "10" ∧ cafberiht_width = 10 := by
  refine ⟨?_, ⟨_, rfl, rfl, rfl⟩, fun v => rfl, rfl, rfl⟩
  show (List.range (cafberiht.size main_cafberiht_bases)).filter
      (fun i => main_cafberiht_bases.getD i 0 % 2 == 0) = [0, 2, 4, 6, 8]
  decide
